import Mathlib

/-!
Shallow embedding of `bambi/priors/scaler.py` (class `PriorScaler`).

Design-matrix and response data are embedded as exact rationals (`ℚ`);
computed prior parameters live in `ℝ` because the scaling rules involve
square roots (`np.std`, the intercept variance rule).  Python exceptions
(`AttributeError` on a scalar prior, `KeyError` on a missing dict entry,
`ValueError` on a mismatched numpy assignment) are embedded as `none` in
`Option`-returning functions.
-/

namespace Bambi

noncomputable section

/-! Numpy-style numeric helpers over exact rationals. -/

/-- Embedding of numpy `mean` over a 1-d array of rationals. -/
def qmean (l : List ℚ) : ℚ := l.sum / (l.length : ℚ)

/-- Embedding of numpy population variance (the square of `np.std`). -/
def qvar (l : List ℚ) : ℚ := ((l.map (fun x => (x - qmean l) ^ 2)).sum) / (l.length : ℚ)

/-- Embedding of numpy `std` (population standard deviation). -/
def std (l : List ℚ) : ℝ := Real.sqrt ((qvar l : ℚ) : ℝ)

/-- Dot product of two real vectors, as `np.dot` computes it on equal-length 1-d arrays. -/
def dot (a b : List ℝ) : ℝ := (List.zipWith (fun x y => x * y) a b).sum

/-- Row sums of a rectangular column-major matrix: `np.sum(data, axis=1)`. -/
def rowSums : List (List ℚ) → List ℚ
  | [] => []
  | [c] => c
  | c :: cs => List.zipWith (fun x y => x + y) c (rowSums cs)

/-- Number of distinct values: `len(np.unique(l))`. -/
def nunique (l : List ℚ) : ℕ := l.dedup.length

/-- Round to the nearest integer, ties to even: numpy rounding. -/
def roundHalfEven (q : ℚ) : ℤ :=
  if q - ⌊q⌋ < 1 / 2 then ⌊q⌋
  else if q - ⌊q⌋ > 1 / 2 then ⌊q⌋ + 1
  else if 2 ∣ ⌊q⌋ then ⌊q⌋ else ⌊q⌋ + 1

/-- Embedding of numpy `round(q, 2)`: round to two decimal places, ties to even. -/
def round2 (q : ℚ) : ℚ := ((roundHalfEven (100 * q) : ℤ) : ℚ) / 100

/-- Embedding of numpy `linspace(a, b, num)`: `num` evenly spaced samples over `[a, b]`. -/
def linspace (a b : ℚ) (num : ℕ) : List ℚ :=
  if num = 0 then []
  else if num = 1 then [a]
  else (List.range num).map (fun k => a + (b - a) * (k : ℚ) / ((num : ℚ) - 1))

/-! The data model: families, priors, terms, components. -/

/-- The family classes the scaler dispatches on (`isinstance` checks). -/
inductive FamilyKind where
  | gaussian
  | studentT
  | bernoulli
  | binomial
  | vonMises
  | cumulative
  | stoppingRatioKind
  | otherFamily
deriving DecidableEq

/-- A family: its class together with the name of the link of parameter `p`
(the only link the scaler ever inspects). -/
structure Family where
  kind : FamilyKind
  linkP : String

/-- The special case tested throughout: bernoulli/binomial family with a
logit or probit link on `p`. -/
def Family.isBinarySpecial (f : Family) : Bool :=
  decide (((f.kind = .bernoulli ∨ f.kind = .binomial)) ∧
    (f.linkP = "logit" ∨ f.linkP = "probit"))

/-- A scalar-or-vector parameter value, as numpy broadcasting produces them. -/
inductive NVal where
  | scalar (x : ℝ)
  | vec (xs : List ℝ)

/-- Flattening used by `np.hstack`: a scalar contributes one entry. -/
def NVal.toList : NVal → List ℝ
  | .scalar x => [x]
  | .vec xs => xs

/-- The `args["sigma"]` sub-prior of a group-specific prior: only its
distribution name and its `sigma` argument are ever touched. -/
structure SubPrior where
  name : String
  sigma : Option NVal

/-- A `bambi.priors.Prior` object: distribution name, the externally set
`auto_scale` flag, and the arguments the scaler reads or writes. -/
structure PriorDist where
  name : String
  auto_scale : Bool
  nu : Option ℝ := none
  mu : Option NVal := none
  sigma : Option NVal := none
  sigmaArg : Option SubPrior := none
  tfm : Option String := none

/-- What a term's `.prior` attribute can hold: a bare number (which has no
`auto_scale` attribute, no `.name`, no `.args`) or a `Prior` object. -/
inductive PriorObj where
  | num (x : ℝ)
  | dist (p : PriorDist)

/-- Python `hasattr(prior, "auto_scale")` plus the flag itself. -/
def PriorObj.autoScale? : PriorObj → Option Bool
  | .num _ => none
  | .dist p => some p.auto_scale

/-- Accessing the prior as a `Prior` object; `none` embeds the
`AttributeError` raised when the attribute is read off a bare number. -/
def PriorObj.asDist : PriorObj → Option PriorDist
  | .num _ => none
  | .dist p => some p

/-- Python `prior.update(mu=m, sigma=s)`. -/
def PriorDist.updateMuSigma (p : PriorDist) (m s : NVal) : PriorDist :=
  { p with mu := some m, sigma := some s }

/-- Term data: a 1-d array or a 2-d design matrix stored as its columns. -/
inductive TermData where
  | one (col : List ℚ)
  | two (cols : List (List ℚ))

/-- Column means: `data.mean(axis=0)`, flattened the way `np.hstack` sees it
(a 1-d array's mean is a single scalar). -/
def TermData.colMeans : TermData → List ℚ
  | .one col => [qmean col]
  | .two cols => cols.map qmean

/-- A component of an interaction (`term.term.components`): only its `kind`
tag (`"categoric"` or `"numeric"`) is inspected. -/
structure FactorComponent where
  kind : String

/-- A model term as the scaler sees it. -/
structure Term where
  name : String
  kind : String
  categorical : Bool
  data : TermData
  components : List FactorComponent := []
  predictor : TermData := .one []
  prior : PriorObj

/-- The parent distributional component: intercept, common and
group-specific terms. -/
structure ParentComponent where
  intercept_term : Option Term := none
  common_terms : List Term := []
  group_specific_terms : List Term := []

/-- Lookup `self.parent_component.terms[name]`; `none` embeds `KeyError`. -/
def ParentComponent.findTerm (pc : ParentComponent) (name : String) : Option Term :=
  (pc.common_terms ++ pc.intercept_term.toList ++ pc.group_specific_terms).find?
    (fun t => t.name == name)

/-- A constant (non-hierarchical) model component holding a prior, or any
other kind of component. -/
inductive ModelComponent where
  | constant (prior : PriorObj)
  | other

/-- The slice of a bambi `Model` the scaler consumes. -/
structure Model where
  family : Family
  responseData : List ℚ
  parent : ParentComponent
  sigmaComp : Option ModelComponent := none
  kappaComp : Option ModelComponent := none
  thresholdComp : Option ModelComponent := none

/-- The registry entry recorded per scaled common term. -/
structure RegistryEntry where
  mu : NVal
  sigma : NVal

/-- The `PriorScaler` instance state. -/
structure Scaler where
  family : Family
  responseData : List ℚ
  parent : ParentComponent
  sigmaComp : Option ModelComponent
  kappaComp : Option ModelComponent
  thresholdComp : Option ModelComponent
  response_mean : ℝ
  response_std : ℝ
  priors : List (String × RegistryEntry)

/-- The class constant `PriorScaler.STD`. -/
def STD : ℝ := 2.5

/-- The `PriorScaler.__init__` body: response mean/std are the sample
statistics for Gaussian/StudentT families and `(0, 1)` otherwise; the
registry starts empty. -/
def PriorScaler.init (m : Model) : Scaler :=
  { family := m.family
    responseData := m.responseData
    parent := m.parent
    sigmaComp := m.sigmaComp
    kappaComp := m.kappaComp
    thresholdComp := m.thresholdComp
    response_mean :=
      if m.family.kind = .gaussian ∨ m.family.kind = .studentT
      then ((qmean m.responseData : ℚ) : ℝ) else 0
    response_std :=
      if m.family.kind = .gaussian ∨ m.family.kind = .studentT
      then std m.responseData else 1
    priors := [] }

/-- Concatenated column means of the registered terms, in registry order:
`np.hstack([self.parent_component.terms[t].data.mean(axis=0) for t in self.priors])`.
`none` embeds the `KeyError` of a registry name with no matching term. -/
def hstackMeans (pc : ParentComponent) : List (String × RegistryEntry) → Option (List ℚ)
  | [] => some []
  | (n, _) :: rest => do
    let t ← pc.findTerm n
    let ms ← hstackMeans pc rest
    some (t.data.colMeans ++ ms)

/-- Embedding of `PriorScaler.get_intercept_stats`.  With a non-empty
registry, `np.dot` on the stacked sigma and mean vectors requires equal
lengths (`none` embeds the `ValueError` otherwise). -/
def get_intercept_stats (s : Scaler) : Option (ℝ × ℝ) :=
  if s.priors.isEmpty then some (s.response_mean, STD * s.response_std)
  else do
    let sigmas : List ℝ := (s.priors.map (fun p => p.2.sigma.toList)).flatten
    let xMean ← hstackMeans s.parent s.priors
    if sigmas.length = xMean.length then
      some (s.response_mean,
        Real.sqrt ((STD * s.response_std) ^ 2 +
          dot (sigmas.map (fun x => x ^ 2)) (xMean.map (fun q => ((q : ℚ) : ℝ) ^ 2))))
    else none

/-- Embedding of `PriorScaler.get_slope_sigma`. -/
def get_slope_sigma (s : Scaler) (x : List ℚ) : ℝ :=
  STD * (s.response_std / std x)

/-- The prior `Prior("HalfStudentT", nu=4, sigma=sg)` (bambi's `Prior`
constructor defaults `auto_scale` to true). -/
def halfStudentT (sg : ℝ) : PriorDist :=
  { name := "HalfStudentT", auto_scale := true, nu := some 4, sigma := some (.scalar sg) }

/-- The auxiliary-parameter update applied by `scale_response`: on a
constant component whose prior is an object with the auto-scale flag set,
the prior becomes `Prior("HalfStudentT", nu=4, sigma=response_std)`;
anything else is left as it was. -/
def respNewComp (comp : ModelComponent) (sg : ℝ) : ModelComponent :=
  match comp with
  | .constant (.dist p) =>
    if p.auto_scale then .constant (.dist (halfStudentT sg)) else comp
  | _ => comp

/-- Embedding of `PriorScaler.scale_response`: replace the auxiliary
response parameter's prior for Gaussian/StudentT (`sigma`) and VonMises
(`kappa`).  `none` embeds the `KeyError` of a missing component. -/
def scale_response (s : Scaler) : Option Scaler :=
  if s.family.kind = .gaussian ∨ s.family.kind = .studentT then do
    let comp ← s.sigmaComp
    some { s with sigmaComp := some (respNewComp comp s.response_std) }
  else if s.family.kind = .vonMises then do
    let comp ← s.kappaComp
    some { s with kappaComp := some (respNewComp comp s.response_std) }
  else some s

/-- Embedding of `PriorScaler.scale_intercept`.  `none` embeds the
`AttributeError` of reading `.name` off a bare-number prior. -/
def scale_intercept (s : Scaler) (t : Term) : Option Term := do
  let p ← t.prior.asDist
  if p.name ≠ "Normal" then some t
  else if s.family.isBinarySpecial then
    some { t with prior := .dist (p.updateMuSigma (.scalar 0) (.scalar 1.5)) }
  else do
    let ms ← get_intercept_stats s
    some { t with prior := .dist (p.updateMuSigma (.scalar ms.1) (.scalar ms.2)) }

/-- Python dict update `self.priors.update({name: entry})`: replace in
place when the key exists, append otherwise. -/
def registryUpdate (reg : List (String × RegistryEntry)) (name : String)
    (e : RegistryEntry) : List (String × RegistryEntry) :=
  if reg.any (fun p => p.1 == name) then
    reg.map (fun p => if p.1 == name then (name, e) else p)
  else reg ++ [(name, e)]

/-- Per-column sigma of `scale_common` in the binary-special multi-column
branch.  In the plain numeric case the source executes
`sigma[i] = 1 / np.std(term.data, axis=0)`, assigning a whole length-k
vector into one cell: that succeeds only when the design matrix has a
single column (`none` embeds the numpy `ValueError` otherwise). -/
def scaleCommonBinaryCol (t : Term) (cols : List (List ℚ)) (c : List ℚ) : Option ℝ :=
  if t.kind = "interaction" then
    if t.components.all (fun fc => fc.kind == "categoric") then some 1
    else some (1 / std (rowSums cols))
  else if t.categorical then some 1
  else if cols.length = 1 then some (1 / std c)
  else none

/-- The column loop of the binary-special multi-column branch of
`scale_common`: `for i, value in enumerate(term.data.T): sigma[i] = ...`. -/
def binarySigmas (t : Term) (cols : List (List ℚ)) : List (List ℚ) → Option (List ℝ)
  | [] => some []
  | c :: cs => do
    let sg ← scaleCommonBinaryCol t cols c
    let rest ← binarySigmas t cols cs
    some (sg :: rest)

/-- Embedding of `PriorScaler.scale_common`: computes `(mu, sigma)`, stores
them in the registry under the term's name, and writes them into the
term's prior. -/
def scale_common (s : Scaler) (t : Term) : Option (Scaler × Term) := do
  let p ← t.prior.asDist
  if p.name ≠ "Normal" then some (s, t)
  else do
    let ms : NVal × NVal ←
      match t.data with
      | .one col =>
        if s.family.isBinarySpecial then
          if t.kind = "interaction" then
            if t.components.all (fun fc => fc.kind == "categoric") then
              some (.scalar 0, .scalar 1)
            else some (.scalar 0, .scalar (1 / std col))
          else if t.categorical then some (.scalar 0, .scalar 1)
          else some (.scalar 0, .scalar (1 / std col))
        else some (.scalar 0, .scalar (get_slope_sigma s col))
      | .two cols =>
        let mu : NVal := .vec (List.replicate cols.length (0 : ℝ))
        if s.family.isBinarySpecial then do
          let sg ← binarySigmas t cols cols
          some (mu, .vec sg)
        else some (mu, .vec (cols.map (fun c => get_slope_sigma s c)))
    let s' := { s with priors := registryUpdate s.priors t.name ⟨ms.1, ms.2⟩ }
    some (s', { t with prior := .dist (p.updateMuSigma ms.1 ms.2) })

/-- Squeeze a sigma vector as `np.squeeze(np.atleast_1d(sigma))` does:
a single entry collapses to a scalar. -/
def squeeze : List ℝ → NVal
  | [x] => .scalar x
  | xs => .vec xs

/-- Embedding of `PriorScaler.scale_group_specific`.  `none` embeds the
`AttributeError`/`KeyError` of `term.prior.args["sigma"]` when the prior is
a bare number or has no `sigma` argument. -/
def scale_group_specific (s : Scaler) (t : Term) : Option Term := do
  let p ← t.prior.asDist
  let sub ← p.sigmaArg
  if sub.name ≠ "HalfNormal" then some t
  else do
    let sg : NVal ←
      if t.kind = "intercept" then do
        let ms ← get_intercept_stats s
        some (.scalar ms.2)
      else
        let cols :=
          match t.predictor with
          | .two cs => cs
          | .one c => [c]
        some (squeeze (cols.map (fun c => get_slope_sigma s c)))
    some { t with prior := .dist { p with sigmaArg := some { sub with sigma := some sg } } }

/-- The threshold update of `scale_threshold`: on a constant component
whose prior carries the auto-scale flag set, the prior is replaced by the
given Normal threshold prior; a constant component with a bare-number
prior raises (`none`, the `AttributeError` of the unguarded flag read);
any other component is left as it was. -/
def thresholdNewComp (comp : ModelComponent) (newPrior : PriorDist) : Option ModelComponent :=
  match comp with
  | .constant prior => do
    let auto ← prior.autoScale?
    if auto then some (.constant (.dist newPrior)) else some comp
  | .other => some comp

/-- Embedding of `PriorScaler.scale_threshold`: threshold priors of the
ordinal families.  `none` embeds the `KeyError` of a missing `threshold`
component or the `AttributeError` of a bare-number prior. -/
def scale_threshold (s : Scaler) : Option Scaler :=
  if s.family.kind = .cumulative then do
    let comp ← s.thresholdComp
    let c ← thresholdNewComp comp
      { name := "Normal", auto_scale := true,
        mu := some (.vec
          (((linspace (-2) 2 (nunique s.responseData - 1)).map round2).map
            (fun q => ((q : ℚ) : ℝ)))),
        sigma := some (.scalar 1), tfm := some "ordered" }
    some { s with thresholdComp := some c }
  else if s.family.kind = .stoppingRatioKind then do
    let comp ← s.thresholdComp
    let c ← thresholdNewComp comp
      { name := "Normal", auto_scale := true,
        mu := some (.vec (List.replicate (nunique s.responseData - 1) (0 : ℝ))),
        sigma := some (.scalar 1) }
    some { s with thresholdComp := some c }
  else some s

/-- The common-term loop of `PriorScaler.scale`: terms whose prior lacks
the `auto_scale` attribute or has it set to false are skipped (the
`hasattr` guard). -/
def scaleCommons (s : Scaler) : List Term → Option (Scaler × List Term)
  | [] => some (s, [])
  | t :: ts => do
    let st ←
      match t.prior.autoScale? with
      | some true => scale_common s t
      | _ => some (s, t)
    let rest ← scaleCommons st.1 ts
    some (rest.1, st.2 :: rest.2)

/-- The group-specific loop of `PriorScaler.scale`: here the flag is read
without a `hasattr` guard, so a bare-number prior raises (`none`). -/
def scaleGroups (s : Scaler) : List Term → Option (List Term)
  | [] => some []
  | t :: ts => do
    let auto ← t.prior.autoScale?
    let t' ← if auto then scale_group_specific s t else some t
    let ts' ← scaleGroups s ts
    some (t' :: ts')

/-- The common-term stage of `PriorScaler.scale`: run the loop over
`common_terms` and store the updated terms back. -/
def scaleCommonStage (s : Scaler) : Option Scaler := do
  let sc ← scaleCommons s s.parent.common_terms
  some { sc.1 with parent := { sc.1.parent with common_terms := sc.2 } }

/-- The intercept stage of `PriorScaler.scale`: when an intercept term
exists, read its auto-scale flag (raising on a bare-number prior) and
scale it when the flag is set. -/
def scaleInterceptStage (s : Scaler) : Option Scaler :=
  match s.parent.intercept_term with
  | none => some s
  | some t => do
    let auto ← t.prior.autoScale?
    if auto then do
      let t' ← scale_intercept s t
      some { s with parent := { s.parent with intercept_term := some t' } }
    else some s

/-- The group-specific stage of `PriorScaler.scale`: run the loop over
`group_specific_terms` and store the updated terms back. -/
def scaleGroupStage (s : Scaler) : Option Scaler := do
  let gs ← scaleGroups s s.parent.group_specific_terms
  some { s with parent := { s.parent with group_specific_terms := gs } }

/-- Embedding of `PriorScaler.scale`, the orchestrator: response, common
terms (building the registry), intercept, group-specific terms, thresholds,
in that order. -/
def scale (m : Model) : Option Scaler := do
  let s1 ← scale_response (PriorScaler.init m)
  let s2 ← scaleCommonStage s1
  let s3 ← scaleInterceptStage s2
  let s4 ← scaleGroupStage s3
  scale_threshold s4

/-! Shared concrete fixtures used by witness theorems. -/

/-- A Normal prior carrying the auto-scale flag, with no arguments set. -/
def normalPrior : PriorDist :=
  { name := "Normal", auto_scale := true }

/-- A minimal scaler state for a given family: empty parent, empty
registry, response statistics `(0, 1)`. -/
def mkScaler (f : Family) : Scaler :=
  { family := f
    responseData := [0, 1]
    parent := {}
    sigmaComp := none
    kappaComp := none
    thresholdComp := none
    response_mean := 0
    response_std := 1
    priors := [] }

/-- A concrete intercept term with a Normal auto-scaled prior. -/
def exInterceptTerm : Term :=
  { name := "Intercept"
    kind := "intercept"
    categorical := false
    data := .one [1, 1]
    prior := .dist normalPrior }

/-- A concrete VonMises model with an eligible constant kappa component. -/
def vmModel : Model :=
  { family := ⟨.vonMises, "tan_2"⟩
    responseData := [0, 1, 2]
    parent := {}
    kappaComp := some (.constant (.dist { name := "Gamma", auto_scale := true })) }

/-! Claim theorems. -/

/-- C3: for a Bernoulli/Binomial family with a logit or probit link,
`scale_intercept` on an eligible Normal intercept prior writes mu = 0 and
sigma = 1.5, for every scaler state (hence independently of the response
statistics and of the registry contents). -/
theorem scale_intercept_binary (s : Scaler) (t : Term) (p : PriorDist)
    (ht : t.prior = .dist p) (hname : p.name = "Normal") (hauto : p.auto_scale = true)
    (hkind : s.family.kind = .bernoulli ∨ s.family.kind = .binomial)
    (hlink : s.family.linkP = "logit" ∨ s.family.linkP = "probit") :
    scale_intercept s t =
      some { t with prior := .dist ({ p with mu := some (.scalar 0), sigma := some (.scalar 1.5) }) } := by
  have hbin : s.family.isBinarySpecial = true := by
    simp only [Family.isBinarySpecial, decide_eq_true_eq]
    exact ⟨hkind, hlink⟩
  simp [scale_intercept, PriorObj.asDist, ht, hname, hbin, PriorDist.updateMuSigma]

/-- C3 witness: concrete Bernoulli-logit model. -/
theorem scale_intercept_binary_witness :
    exInterceptTerm.prior = .dist normalPrior ∧
    normalPrior.name = "Normal" ∧
    scale_intercept (mkScaler ⟨.bernoulli, "logit"⟩) exInterceptTerm =
      some { exInterceptTerm with prior := .dist ({ normalPrior with mu := some (.scalar 0), sigma := some (.scalar 1.5) }) } :=
  ⟨rfl, rfl,
    scale_intercept_binary (mkScaler ⟨.bernoulli, "logit"⟩) exInterceptTerm normalPrior
      rfl rfl rfl (Or.inl rfl) (Or.inl rfl)⟩

/-- C5: the code has no degenerate-predictor guard.  On the constant
column `[1, 1, 1]` the standard deviation is zero, and `get_slope_sigma`
still returns the unguarded quotient `STD * (response_std / 0)` instead of
raising any error (in numpy this division emits `inf` with a warning; no
exception reaches the caller). -/
theorem get_slope_sigma_zero_std_unguarded :
    std [(1 : ℚ), 1, 1] = 0 ∧
    get_slope_sigma (mkScaler ⟨.gaussian, "identity"⟩) [(1 : ℚ), 1, 1] =
      STD * ((mkScaler ⟨.gaussian, "identity"⟩).response_std / 0) := by
  have hv : qvar [(1 : ℚ), 1, 1] = 0 := by
    norm_num [qvar, qmean]
  have hs : std [(1 : ℚ), 1, 1] = 0 := by
    rw [std, hv]
    norm_num
  exact ⟨hs, by rw [get_slope_sigma, hs]⟩

/-- C10: for a VonMises family the constructor fixes the response std at 1
(the family is not Gaussian/StudentT), so the kappa prior written by
`scale_response` is exactly HalfStudentT(nu = 4, sigma = 1) no matter what
the response data are. -/
theorem scale_response_vonmises (m : Model) (p : PriorDist)
    (hfam : m.family.kind = .vonMises)
    (hk : m.kappaComp = some (.constant (.dist p)))
    (hauto : p.auto_scale = true) :
    (PriorScaler.init m).response_std = 1 ∧
    scale_response (PriorScaler.init m) =
      some { PriorScaler.init m with kappaComp := some (.constant (.dist
        { name := "HalfStudentT", auto_scale := true, nu := some 4, mu := none,
          sigma := some (.scalar 1), sigmaArg := none, tfm := none })) } := by
  have hstd : (PriorScaler.init m).response_std = 1 := by
    simp [PriorScaler.init, hfam]
  refine ⟨hstd, ?_⟩
  simp [scale_response, PriorScaler.init, hfam, hk, hauto, halfStudentT, respNewComp]

/-- C10 witness: concrete VonMises model with an eligible constant kappa
component. -/
theorem scale_response_vonmises_witness :
    (vmModel.family.kind = FamilyKind.vonMises) ∧
    ((PriorScaler.init vmModel).response_std = 1 ∧
      scale_response (PriorScaler.init vmModel) =
        some { PriorScaler.init vmModel with kappaComp := some (.constant (.dist
          { name := "HalfStudentT", auto_scale := true, nu := some 4, mu := none,
            sigma := some (.scalar 1), sigmaArg := none, tfm := none })) }) :=
  ⟨rfl, scale_response_vonmises vmModel { name := "Gamma", auto_scale := true } rfl rfl rfl⟩

/-- A concrete single-column numeric common term with a Normal prior. -/
def exSlopeTerm : Term :=
  { name := "x"
    kind := "numeric"
    categorical := false
    data := .one [0, 1]
    prior := .dist normalPrior }

/-- C2: for a common term with an eligible Normal prior, outside the binary
logit/probit special case, `scale_common` writes mu = 0 and, per design
column x, sigma = 2.5 * (response_std / std x); a single-column term gets
scalars, a multi-column term gets a zero vector and a per-column sigma
vector; the pair is stored in the registry under the term's name and
written into the term's prior. -/
theorem scale_common_general_rule (s : Scaler) (t : Term) (p : PriorDist)
    (ht : t.prior = .dist p) (hname : p.name = "Normal") (hauto : p.auto_scale = true)
    (hfam : s.family.isBinarySpecial = false) :
    (∀ col, t.data = .one col →
      scale_common s t = some
        ({ s with priors := registryUpdate s.priors t.name ⟨.scalar 0, .scalar (2.5 * (s.response_std / std col))⟩ },
         { t with prior := .dist ({ p with mu := some (.scalar 0), sigma := some (.scalar (2.5 * (s.response_std / std col))) }) })) ∧
    (∀ cols, t.data = .two cols →
      scale_common s t = some
        ({ s with priors := registryUpdate s.priors t.name ⟨.vec (List.replicate cols.length 0), .vec (cols.map (fun c => 2.5 * (s.response_std / std c)))⟩ },
         { t with prior := .dist ({ p with mu := some (.vec (List.replicate cols.length 0)), sigma := some (.vec (cols.map (fun c => 2.5 * (s.response_std / std c)))) }) })) := by
  constructor
  · intro col hd
    simp [scale_common, PriorObj.asDist, ht, hname, hd, hfam, get_slope_sigma, STD,
      PriorDist.updateMuSigma]
  · intro cols hd
    simp [scale_common, PriorObj.asDist, ht, hname, hd, hfam, get_slope_sigma, STD,
      PriorDist.updateMuSigma]

/-- C2 witness: a concrete Gaussian model and a single numeric column. -/
theorem scale_common_general_rule_witness :
    exSlopeTerm.prior = .dist normalPrior ∧
    (mkScaler ⟨.gaussian, "identity"⟩).family.isBinarySpecial = false ∧
    scale_common (mkScaler ⟨.gaussian, "identity"⟩) exSlopeTerm = some
      ({ mkScaler ⟨.gaussian, "identity"⟩ with priors := registryUpdate (mkScaler ⟨.gaussian, "identity"⟩).priors exSlopeTerm.name ⟨.scalar 0, .scalar (2.5 * ((mkScaler ⟨.gaussian, "identity"⟩).response_std / std [0, 1]))⟩ },
       { exSlopeTerm with prior := .dist ({ normalPrior with mu := some (.scalar 0), sigma := some (.scalar (2.5 * ((mkScaler ⟨.gaussian, "identity"⟩).response_std / std [0, 1]))) }) }) :=
  ⟨rfl, rfl,
    (scale_common_general_rule (mkScaler ⟨.gaussian, "identity"⟩) exSlopeTerm normalPrior
      rfl rfl rfl rfl).1 [0, 1] rfl⟩

/-- C9: `scale_group_specific` is a no-op when the sigma sub-prior is not
HalfNormal; with a HalfNormal sub-prior, an intercept-kind term receives
the sigma of the intercept-stats rule (mu discarded), and a slope term
receives per-column sigma = 2.5 * (response_std / std col) over the
predictor reshaped to columns, squeezed to a scalar for a single column. -/
theorem scale_group_specific_spec (s : Scaler) (t : Term) (p : PriorDist) (sub : SubPrior)
    (ht : t.prior = .dist p) (hsub : p.sigmaArg = some sub) :
    (sub.name ≠ "HalfNormal" → scale_group_specific s t = some t) ∧
    (sub.name = "HalfNormal" →
      (∀ mu sg, t.kind = "intercept" → get_intercept_stats s = some (mu, sg) →
        scale_group_specific s t = some { t with prior := .dist ({ p with sigmaArg := some { sub with sigma := some (.scalar sg) } }) }) ∧
      (t.kind ≠ "intercept" →
        (∀ col, t.predictor = .one col →
          scale_group_specific s t = some { t with prior := .dist ({ p with sigmaArg := some { sub with sigma := some (.scalar (2.5 * (s.response_std / std col))) } }) }) ∧
        (∀ cols, t.predictor = .two cols →
          scale_group_specific s t = some { t with prior := .dist ({ p with sigmaArg := some { sub with sigma := some (squeeze (cols.map (fun c => 2.5 * (s.response_std / std c)))) } }) }))) := by
  refine ⟨?_, fun hn => ⟨?_, fun hk => ⟨?_, ?_⟩⟩⟩
  · intro hn
    simp [scale_group_specific, PriorObj.asDist, ht, hsub, hn]
  · intro mu sg hk hstats
    simp [scale_group_specific, PriorObj.asDist, ht, hsub, hn, hk, hstats]
  · intro col hp
    simp [scale_group_specific, PriorObj.asDist, ht, hsub, hn, hk, hp, squeeze,
      get_slope_sigma, STD]
  · intro cols hp
    simp [scale_group_specific, PriorObj.asDist, ht, hsub, hn, hk, hp,
      get_slope_sigma, STD]

/-- A concrete group-specific intercept term with a HalfNormal sigma
sub-prior. -/
def exGroupTerm : Term :=
  { name := "1|g"
    kind := "intercept"
    categorical := false
    data := .one [1, 1]
    prior := .dist ({ name := "Normal", auto_scale := true, sigmaArg := some { name := "HalfNormal", sigma := none } }) }

/-- C9 witness: concrete group-specific intercept over an empty registry. -/
theorem scale_group_specific_spec_witness :
    exGroupTerm.kind = "intercept" ∧
    get_intercept_stats (mkScaler ⟨.gaussian, "identity"⟩) =
      some ((mkScaler ⟨.gaussian, "identity"⟩).response_mean, STD * (mkScaler ⟨.gaussian, "identity"⟩).response_std) ∧
    scale_group_specific (mkScaler ⟨.gaussian, "identity"⟩) exGroupTerm =
      some { exGroupTerm with prior := .dist ({ name := "Normal", auto_scale := true, sigmaArg := some { name := "HalfNormal", sigma := some (.scalar (STD * (mkScaler ⟨.gaussian, "identity"⟩).response_std)) } } : PriorDist) } :=
  ⟨rfl, rfl,
    ((scale_group_specific_spec (mkScaler ⟨.gaussian, "identity"⟩) exGroupTerm
        ({ name := "Normal", auto_scale := true, sigmaArg := some { name := "HalfNormal", sigma := none } })
        { name := "HalfNormal", sigma := none } rfl rfl).2 rfl).1
      (mkScaler ⟨.gaussian, "identity"⟩).response_mean
      (STD * (mkScaler ⟨.gaussian, "identity"⟩).response_std) rfl rfl⟩

/-- C7: with an eligible constant threshold component, the cumulative
family receives a Normal prior whose mu is the K-1 values of
linspace(-2, 2) rounded to two decimals (K the number of distinct observed
response values), sigma = 1, together with the ordered transform (the
strictly-increasing constraint on the sampled vector); the stopping-ratio
family receives mu = zero vector of length K-1, sigma = 1 and no
transform; K = 4 yields mu = [-2, 0, 2] in the cumulative case. -/
theorem scale_threshold_spec (s : Scaler) (p : PriorDist)
    (hcomp : s.thresholdComp = some (.constant (.dist p)))
    (hauto : p.auto_scale = true) :
    (s.family.kind = .cumulative →
      scale_threshold s = some { s with thresholdComp := some (.constant (.dist ({ name := "Normal", auto_scale := true, nu := none, mu := some (.vec (((linspace (-2) 2 (nunique s.responseData - 1)).map round2).map (fun q => ((q : ℚ) : ℝ)))), sigma := some (.scalar 1), sigmaArg := none, tfm := some "ordered" }))) }) ∧
    (s.family.kind = .stoppingRatioKind →
      scale_threshold s = some { s with thresholdComp := some (.constant (.dist ({ name := "Normal", auto_scale := true, nu := none, mu := some (.vec (List.replicate (nunique s.responseData - 1) (0 : ℝ))), sigma := some (.scalar 1), sigmaArg := none, tfm := none }))) }) ∧
    (nunique s.responseData = 4 →
      (linspace (-2) 2 (nunique s.responseData - 1)).map round2 = [-2, 0, 2]) := by
  refine ⟨?_, ?_, ?_⟩
  · intro hk
    simp [scale_threshold, hk, hcomp, thresholdNewComp, PriorObj.autoScale?, hauto]
  · intro hk
    have hg : s.family.kind ≠ .cumulative := by rw [hk]; intro hcon; cases hcon
    simp [scale_threshold, hk, hg, hcomp, thresholdNewComp, PriorObj.autoScale?, hauto]
  · intro hn
    rw [hn]
    norm_num [linspace, List.range_succ, round2, roundHalfEven]

/-- A concrete cumulative-family scaler with four observed response
levels and an eligible constant threshold component. -/
def cumScaler : Scaler :=
  { family := ⟨.cumulative, "logit"⟩
    responseData := [0, 1, 2, 3]
    parent := {}
    sigmaComp := none
    kappaComp := none
    thresholdComp := some (.constant (.dist normalPrior))
    response_mean := 0
    response_std := 1
    priors := [] }

/-- C7 witness: the concrete cumulative scaler with K = 4. -/
theorem scale_threshold_spec_witness :
    cumScaler.family.kind = FamilyKind.cumulative ∧
    nunique cumScaler.responseData = 4 ∧
    ((linspace (-2) 2 (nunique cumScaler.responseData - 1)).map round2 = [-2, 0, 2]) ∧
    scale_threshold cumScaler = some { cumScaler with thresholdComp := some (.constant (.dist ({ name := "Normal", auto_scale := true, nu := none, mu := some (.vec (((linspace (-2) 2 (nunique cumScaler.responseData - 1)).map round2).map (fun q => ((q : ℚ) : ℝ)))), sigma := some (.scalar 1), sigmaArg := none, tfm := some "ordered" }))) } :=
  ⟨rfl, by decide,
    (scale_threshold_spec cumScaler normalPrior rfl rfl).2.2 (by decide),
    (scale_threshold_spec cumScaler normalPrior rfl rfl).1 rfl⟩

/-- When every column yields the same sigma, the binary-special column loop
returns that constant vector. -/
theorem binarySigmas_const (t : Term) (cols : List (List ℚ)) (v : ℝ)
    (h : ∀ c, scaleCommonBinaryCol t cols c = some v) :
    ∀ l : List (List ℚ), binarySigmas t cols l = some (List.replicate l.length v) := by
  intro l
  induction l with
  | nil => rfl
  | cons c cs ih => simp [binarySigmas, h, ih, List.replicate_succ]

/-- C4: under the binary logit/probit special case, `scale_common` computes
sigma per column as follows: 1 for an interaction all of whose components
are categorical and for a single categorical predictor; 1/std(column) for
a single-column term with a numeric component; 1/std(row-sum across
columns) for every column of a multi-column interaction with a numeric
component; a one-column numeric matrix gets 1/std of that column; and a
non-interaction numeric term spanning two or more columns raises (numpy
`ValueError`: the per-column std vector is assigned into a single cell)
instead of receiving per-column values. -/
theorem scale_common_binary_rule (s : Scaler) (t : Term) (p : PriorDist)
    (ht : t.prior = .dist p) (hname : p.name = "Normal") (hauto : p.auto_scale = true)
    (hfam : s.family.isBinarySpecial = true) :
    (∀ col, t.data = .one col → t.kind = "interaction" →
      t.components.all (fun fc => fc.kind == "categoric") = true →
      scale_common s t = some ({ s with priors := registryUpdate s.priors t.name ⟨.scalar 0, .scalar 1⟩ }, { t with prior := .dist ({ p with mu := some (.scalar 0), sigma := some (.scalar 1) }) })) ∧
    (∀ col, t.data = .one col → t.kind = "interaction" →
      t.components.all (fun fc => fc.kind == "categoric") = false →
      scale_common s t = some ({ s with priors := registryUpdate s.priors t.name ⟨.scalar 0, .scalar (1 / std col)⟩ }, { t with prior := .dist ({ p with mu := some (.scalar 0), sigma := some (.scalar (1 / std col)) }) })) ∧
    (∀ col, t.data = .one col → t.kind ≠ "interaction" → t.categorical = true →
      scale_common s t = some ({ s with priors := registryUpdate s.priors t.name ⟨.scalar 0, .scalar 1⟩ }, { t with prior := .dist ({ p with mu := some (.scalar 0), sigma := some (.scalar 1) }) })) ∧
    (∀ col, t.data = .one col → t.kind ≠ "interaction" → t.categorical = false →
      scale_common s t = some ({ s with priors := registryUpdate s.priors t.name ⟨.scalar 0, .scalar (1 / std col)⟩ }, { t with prior := .dist ({ p with mu := some (.scalar 0), sigma := some (.scalar (1 / std col)) }) })) ∧
    (∀ cols, t.data = .two cols → t.kind = "interaction" →
      t.components.all (fun fc => fc.kind == "categoric") = true →
      scale_common s t = some ({ s with priors := registryUpdate s.priors t.name ⟨.vec (List.replicate cols.length 0), .vec (List.replicate cols.length 1)⟩ }, { t with prior := .dist ({ p with mu := some (.vec (List.replicate cols.length 0)), sigma := some (.vec (List.replicate cols.length 1)) }) })) ∧
    (∀ cols, t.data = .two cols → t.kind = "interaction" →
      t.components.all (fun fc => fc.kind == "categoric") = false →
      scale_common s t = some ({ s with priors := registryUpdate s.priors t.name ⟨.vec (List.replicate cols.length 0), .vec (List.replicate cols.length (1 / std (rowSums cols)))⟩ }, { t with prior := .dist ({ p with mu := some (.vec (List.replicate cols.length 0)), sigma := some (.vec (List.replicate cols.length (1 / std (rowSums cols)))) }) })) ∧
    (∀ cols, t.data = .two cols → t.kind ≠ "interaction" → t.categorical = true →
      scale_common s t = some ({ s with priors := registryUpdate s.priors t.name ⟨.vec (List.replicate cols.length 0), .vec (List.replicate cols.length 1)⟩ }, { t with prior := .dist ({ p with mu := some (.vec (List.replicate cols.length 0)), sigma := some (.vec (List.replicate cols.length 1)) }) })) ∧
    (∀ c, t.data = .two [c] → t.kind ≠ "interaction" → t.categorical = false →
      scale_common s t = some ({ s with priors := registryUpdate s.priors t.name ⟨.vec [0], .vec [1 / std c]⟩ }, { t with prior := .dist ({ p with mu := some (.vec [0]), sigma := some (.vec [1 / std c]) }) })) ∧
    (∀ cols, t.data = .two cols → t.kind ≠ "interaction" → t.categorical = false →
      2 ≤ cols.length → scale_common s t = none) := by
  refine ⟨?_, ?_, ?_, ?_, ?_, ?_, ?_, ?_, ?_⟩
  · intro col hd hk hall
    simp [scale_common, PriorObj.asDist, ht, hname, hd, hfam, hk, hall,
      PriorDist.updateMuSigma]
  · intro col hd hk hall
    simp [scale_common, PriorObj.asDist, ht, hname, hd, hfam, hk, hall,
      PriorDist.updateMuSigma]
  · intro col hd hk hcat
    simp [scale_common, PriorObj.asDist, ht, hname, hd, hfam, hk, hcat,
      PriorDist.updateMuSigma]
  · intro col hd hk hcat
    simp [scale_common, PriorObj.asDist, ht, hname, hd, hfam, hk, hcat,
      PriorDist.updateMuSigma]
  · intro cols hd hk hall
    have hb : binarySigmas t cols cols = some (List.replicate cols.length 1) :=
      binarySigmas_const t cols 1 (fun c => by simp [scaleCommonBinaryCol, hk, hall]) cols
    simp [scale_common, PriorObj.asDist, ht, hname, hd, hfam, hb,
      PriorDist.updateMuSigma]
  · intro cols hd hk hall
    have hb : binarySigmas t cols cols =
        some (List.replicate cols.length (1 / std (rowSums cols))) :=
      binarySigmas_const t cols (1 / std (rowSums cols))
        (fun c => by simp [scaleCommonBinaryCol, hk, hall]) cols
    simp [scale_common, PriorObj.asDist, ht, hname, hd, hfam, hb,
      PriorDist.updateMuSigma]
  · intro cols hd hk hcat
    have hb : binarySigmas t cols cols = some (List.replicate cols.length 1) :=
      binarySigmas_const t cols 1 (fun c => by simp [scaleCommonBinaryCol, hk, hcat]) cols
    simp [scale_common, PriorObj.asDist, ht, hname, hd, hfam, hb,
      PriorDist.updateMuSigma]
  · intro c hd hk hcat
    have hb : binarySigmas t [c] [c] = some [1 / std c] := by
      simp [binarySigmas, scaleCommonBinaryCol, hk, hcat]
    simp [scale_common, PriorObj.asDist, ht, hname, hd, hfam, hb,
      PriorDist.updateMuSigma]
  · intro cols hd hk hcat hlen
    match cols, hlen with
    | c₁ :: c₂ :: rest, _ =>
      have hb : binarySigmas t (c₁ :: c₂ :: rest) (c₁ :: c₂ :: rest) = none := by
        simp [binarySigmas, scaleCommonBinaryCol, hk, hcat]
      simp [scale_common, PriorObj.asDist, ht, hname, hd, hfam, hb]

/-- A concrete single-column categorical common term. -/
def exCatTerm : Term :=
  { name := "g"
    kind := "categoric"
    categorical := true
    data := .one [0, 1, 1]
    prior := .dist normalPrior }

/-- A concrete two-column numeric non-interaction common term. -/
def exTwoColNumTerm : Term :=
  { name := "b"
    kind := "numeric"
    categorical := false
    data := .two [[0, 1], [0, 2]]
    prior := .dist normalPrior }

/-- C4 counterexample: under a Bernoulli-logit family, a non-interaction
numeric term spanning two design columns makes `scale_common` raise (the
source assigns the length-2 vector `1/np.std(term.data, axis=0)` into the
scalar cell `sigma[i]`, a numpy `ValueError`), instead of giving each
column sigma = 1/std(that column) as the claim states. -/
theorem scale_common_binary_twocol_numeric_raises :
    scale_common (mkScaler ⟨.bernoulli, "logit"⟩) exTwoColNumTerm = none := by
  have hb : binarySigmas exTwoColNumTerm [[0, 1], [0, 2]] [[0, 1], [0, 2]] = none := by
    simp [binarySigmas, scaleCommonBinaryCol, exTwoColNumTerm]
  have hp : exTwoColNumTerm.prior = .dist normalPrior := rfl
  have hd : exTwoColNumTerm.data = .two [[0, 1], [0, 2]] := rfl
  have hf : (mkScaler ⟨.bernoulli, "logit"⟩).family.isBinarySpecial = true := rfl
  simp [scale_common, PriorObj.asDist, hp, normalPrior, hd, hf, hb]

/-- C4 witness: a concrete single categorical predictor under
Bernoulli-logit receives sigma = 1. -/
theorem scale_common_binary_rule_witness :
    (mkScaler ⟨.bernoulli, "logit"⟩).family.isBinarySpecial = true ∧
    exCatTerm.categorical = true ∧
    scale_common (mkScaler ⟨.bernoulli, "logit"⟩) exCatTerm = some
      ({ mkScaler ⟨.bernoulli, "logit"⟩ with priors := registryUpdate (mkScaler ⟨.bernoulli, "logit"⟩).priors exCatTerm.name ⟨.scalar 0, .scalar 1⟩ },
       { exCatTerm with prior := .dist ({ normalPrior with mu := some (.scalar 0), sigma := some (.scalar 1) }) }) :=
  ⟨rfl, rfl,
    (scale_common_binary_rule (mkScaler ⟨.bernoulli, "logit"⟩) exCatTerm normalPrior
      rfl rfl rfl rfl).2.2.1 [0, 1, 1] rfl (by decide) rfl⟩

/-- C8: `scale_response` replaces the auxiliary parameter's prior with
HalfStudentT(nu = 4, sigma = response_std) exactly when the family is
Gaussian/StudentT (sigma component) or VonMises (kappa component), the
component is constant, and its prior is an object with the auto-scale flag
set; in every other case the state is returned unchanged. -/
theorem scale_response_spec (s : Scaler) :
    (∀ c, (s.family.kind = .gaussian ∨ s.family.kind = .studentT) → s.sigmaComp = some c →
      ((∀ p, c = .constant (.dist p) → p.auto_scale = true →
        scale_response s = some { s with sigmaComp := some (.constant (.dist ({ name := "HalfStudentT", auto_scale := true, nu := some 4, mu := none, sigma := some (.scalar s.response_std), sigmaArg := none, tfm := none }))) }) ∧
       ((¬ ∃ p, c = .constant (.dist p) ∧ p.auto_scale = true) →
        scale_response s = some s))) ∧
    (∀ c, s.family.kind = .vonMises → s.kappaComp = some c →
      ((∀ p, c = .constant (.dist p) → p.auto_scale = true →
        scale_response s = some { s with kappaComp := some (.constant (.dist ({ name := "HalfStudentT", auto_scale := true, nu := some 4, mu := none, sigma := some (.scalar s.response_std), sigmaArg := none, tfm := none }))) }) ∧
       ((¬ ∃ p, c = .constant (.dist p) ∧ p.auto_scale = true) →
        scale_response s = some s))) ∧
    (s.family.kind ≠ .gaussian → s.family.kind ≠ .studentT → s.family.kind ≠ .vonMises →
      scale_response s = some s) := by
  refine ⟨?_, ?_, ?_⟩
  · intro c hfam hc
    constructor
    · intro p hcp hp
      subst hcp
      rcases hfam with h | h <;>
        simp [scale_response, h, hc, hp, halfStudentT, respNewComp]
    · intro hneg
      have hcn : respNewComp c s.response_std = c := by
        rcases c with prior | _
        · rcases prior with x | p
          · rfl
          · have hp : p.auto_scale = false := by
              cases hb : p.auto_scale with
              | true => exact absurd ⟨p, rfl, hb⟩ hneg
              | false => rfl
            simp [respNewComp, hp]
        · rfl
      have hgoal : scale_response s = some { s with sigmaComp := some c } := by
        rcases hfam with h | h <;> simp [scale_response, h, hc, hcn]
      rw [hgoal, ← hc]
  · intro c hfam hc
    have hg : s.family.kind ≠ .gaussian := by rw [hfam]; intro hcon; cases hcon
    have hs : s.family.kind ≠ .studentT := by rw [hfam]; intro hcon; cases hcon
    constructor
    · intro p hcp hp
      subst hcp
      simp [scale_response, hfam, hg, hs, hc, hp, halfStudentT, respNewComp]
    · intro hneg
      have hcn : respNewComp c s.response_std = c := by
        rcases c with prior | _
        · rcases prior with x | p
          · rfl
          · have hp : p.auto_scale = false := by
              cases hb : p.auto_scale with
              | true => exact absurd ⟨p, rfl, hb⟩ hneg
              | false => rfl
            simp [respNewComp, hp]
        · rfl
      have hgoal : scale_response s = some { s with kappaComp := some c } := by
        simp [scale_response, hfam, hg, hs, hc, hcn]
      rw [hgoal, ← hc]
  · intro h1 h2 h3
    simp [scale_response, h1, h2, h3]

/-- A concrete Gaussian scaler with an eligible constant sigma component. -/
def gaussSigmaScaler : Scaler :=
  { family := ⟨.gaussian, "identity"⟩
    responseData := [0, 1]
    parent := {}
    sigmaComp := some (.constant (.dist { name := "HalfStudentT", auto_scale := true }))
    kappaComp := none
    thresholdComp := none
    response_mean := 0
    response_std := 1
    priors := [] }

/-- C8 witness: the concrete Gaussian scaler gets its sigma prior
replaced. -/
theorem scale_response_spec_witness :
    gaussSigmaScaler.sigmaComp =
      some (.constant (.dist { name := "HalfStudentT", auto_scale := true })) ∧
    scale_response gaussSigmaScaler =
      some { gaussSigmaScaler with sigmaComp := some (.constant (.dist ({ name := "HalfStudentT", auto_scale := true, nu := some 4, mu := none, sigma := some (.scalar gaussSigmaScaler.response_std), sigmaArg := none, tfm := none }))) } :=
  ⟨rfl,
    ((scale_response_spec gaussSigmaScaler).1
      (.constant (.dist { name := "HalfStudentT", auto_scale := true }))
      (Or.inl rfl) rfl).1 { name := "HalfStudentT", auto_scale := true } rfl rfl⟩

/-- Dot products distribute over appending equal-length prefixes. -/
theorem dot_append (a b c d : List ℝ) (h : a.length = c.length) :
    dot (a ++ b) (c ++ d) = dot a c + dot b d := by
  rw [dot, dot, dot, List.zipWith_append _ _ _ _ _ h, List.sum_append]

/-- The lookup loop of `get_intercept_stats` returns the concatenated
column means of the terms resolved from the registry names. -/
theorem hstackMeans_of_forall2 (pc : ParentComponent)
    {reg : List (String × RegistryEntry)} {ts : List Term}
    (h : List.Forall₂ (fun pr t => pc.findTerm pr.1 = some t) reg ts) :
    hstackMeans pc reg = some ((ts.map (fun t => t.data.colMeans)).flatten) := by
  induction h with
  | nil => rfl
  | @cons a b l₁ l₂ hab hrest ih =>
    obtain ⟨n, e⟩ := a
    simp only at hab
    simp [hstackMeans, hab, ih]

/-- The stacked sigma and mean vectors have equal lengths when each
registry block matches its term's column count. -/
theorem flatten_len_of_forall2 {reg : List (String × RegistryEntry)} {ts : List Term}
    (h : List.Forall₂ (fun pr t => (pr.2.sigma.toList).length = t.data.colMeans.length) reg ts) :
    ((reg.map (fun pr => pr.2.sigma.toList)).flatten).length =
      ((ts.map (fun t => t.data.colMeans)).flatten).length := by
  induction h with
  | nil => rfl
  | @cons a b l₁ l₂ hab hrest ih => simp [hab, ih]

/-- The flat dot product of squared stacked sigmas against squared stacked
means decomposes into the per-term sum of the claim formula. -/
theorem dot_sq_blocks {reg : List (String × RegistryEntry)} {ts : List Term}
    (h : List.Forall₂ (fun pr t => (pr.2.sigma.toList).length = t.data.colMeans.length) reg ts) :
    dot (((reg.map (fun pr => pr.2.sigma.toList)).flatten).map (fun x => x ^ 2))
      (((ts.map (fun t => t.data.colMeans)).flatten).map (fun q => ((q : ℚ) : ℝ) ^ 2)) =
    (List.zipWith (fun (pr : String × RegistryEntry) (t : Term) =>
      dot ((pr.2.sigma.toList).map (fun x => x ^ 2))
        ((t.data.colMeans).map (fun q => ((q : ℚ) : ℝ) ^ 2))) reg ts).sum := by
  induction h with
  | nil => simp [dot]
  | @cons a b l₁ l₂ hab hrest ih =>
    simp only [List.map_cons, List.flatten_cons, List.map_append, List.zipWith_cons_cons,
      List.sum_cons]
    rw [dot_append _ _ _ _ (by simpa using hab), ih]

/-- C1: the response statistics are the sample mean/std for
Gaussian/StudentT families and (0, 1) otherwise; `get_intercept_stats`
returns mu = response_mean always, sigma = 2.5 * response_std for an empty
registry, and sigma = sqrt((2.5 * response_std)^2 + sum over registered
terms of sigma_t^2 paired against the squared column means of the term
looked up by the registry name) for a non-empty registry. -/
theorem get_intercept_stats_spec (s : Scaler) (ts : List Term)
    (hreg : List.Forall₂ (fun (pr : String × RegistryEntry) (t : Term) =>
      s.parent.findTerm pr.1 = some t ∧
      (pr.2.sigma.toList).length = t.data.colMeans.length) s.priors ts) :
    (∀ m : Model,
      ((m.family.kind = .gaussian ∨ m.family.kind = .studentT) →
        (PriorScaler.init m).response_mean = ((qmean m.responseData : ℚ) : ℝ) ∧
        (PriorScaler.init m).response_std = std m.responseData) ∧
      (m.family.kind ≠ .gaussian → m.family.kind ≠ .studentT →
        (PriorScaler.init m).response_mean = 0 ∧ (PriorScaler.init m).response_std = 1)) ∧
    (s.priors = [] →
      get_intercept_stats s = some (s.response_mean, 2.5 * s.response_std)) ∧
    (s.priors ≠ [] →
      get_intercept_stats s = some (s.response_mean,
        Real.sqrt ((2.5 * s.response_std) ^ 2 +
          (List.zipWith (fun (pr : String × RegistryEntry) (t : Term) =>
            dot ((pr.2.sigma.toList).map (fun x => x ^ 2))
              ((t.data.colMeans).map (fun q => ((q : ℚ) : ℝ) ^ 2))) s.priors ts).sum))) := by
  refine ⟨?_, ?_, ?_⟩
  · intro m
    constructor
    · intro h
      rcases h with h | h <;> simp [PriorScaler.init, h]
    · intro h1 h2
      simp [PriorScaler.init, h1, h2]
  · intro h
    simp [get_intercept_stats, h, STD]
  · intro hne
    have h1 : List.Forall₂ (fun (pr : String × RegistryEntry) (t : Term) =>
        s.parent.findTerm pr.1 = some t) s.priors ts :=
      hreg.imp (fun a b hh => hh.1)
    have h2 : List.Forall₂ (fun (pr : String × RegistryEntry) (t : Term) =>
        (pr.2.sigma.toList).length = t.data.colMeans.length) s.priors ts :=
      hreg.imp (fun a b hh => hh.2)
    have hm := hstackMeans_of_forall2 s.parent h1
    have hlen := flatten_len_of_forall2 h2
    have hkey := dot_sq_blocks h2
    have hemp : s.priors.isEmpty = false := by
      cases hp : s.priors with
      | nil => exact absurd hp hne
      | cons a l => rfl
    simp only [get_intercept_stats, hemp, Bool.false_eq_true, if_false, hm, Option.bind_eq_bind,
      Option.some_bind, hlen, if_true, STD]
    rw [hkey]

/-- A concrete common term matching the registry entry of `c1Scaler`. -/
def c1Term : Term :=
  { name := "x"
    kind := "numeric"
    categorical := false
    data := .one [1, 3]
    prior := .dist normalPrior }

/-- A concrete scaler whose registry holds one scaled common term. -/
def c1Scaler : Scaler :=
  { family := ⟨.gaussian, "identity"⟩
    responseData := [0, 1]
    parent := { common_terms := [c1Term] }
    sigmaComp := none
    kappaComp := none
    thresholdComp := none
    response_mean := 0
    response_std := 1
    priors := [("x", ⟨.scalar 5, .scalar 5⟩)] }

/-- C1 witness: the concrete scaler with a one-entry registry. -/
theorem get_intercept_stats_spec_witness :
    c1Scaler.priors ≠ [] ∧
    get_intercept_stats c1Scaler = some (c1Scaler.response_mean,
      Real.sqrt ((2.5 * c1Scaler.response_std) ^ 2 +
        (List.zipWith (fun (pr : String × RegistryEntry) (t : Term) =>
          dot ((pr.2.sigma.toList).map (fun x => x ^ 2))
            ((t.data.colMeans).map (fun q => ((q : ℚ) : ℝ) ^ 2))) c1Scaler.priors [c1Term]).sum)) := by
  constructor
  · simp [c1Scaler]
  · exact (get_intercept_stats_spec c1Scaler [c1Term]
      (List.Forall₂.cons ⟨rfl, rfl⟩ List.Forall₂.nil)).2.2 (by simp [c1Scaler])

/-- A non-Normal prior leaves `scale_intercept` without effect. -/
theorem scale_intercept_nonNormal (s : Scaler) (t : Term) (p : PriorDist)
    (ht : t.prior = .dist p) (hname : p.name ≠ "Normal") :
    scale_intercept s t = some t := by
  simp [scale_intercept, PriorObj.asDist, ht, hname]

/-- A non-Normal prior leaves `scale_common` without effect. -/
theorem scale_common_nonNormal (s : Scaler) (t : Term) (p : PriorDist)
    (ht : t.prior = .dist p) (hname : p.name ≠ "Normal") :
    scale_common s t = some (s, t) := by
  simp [scale_common, PriorObj.asDist, ht, hname]

/-- A non-HalfNormal sigma sub-prior leaves `scale_group_specific` without
effect. -/
theorem scale_group_specific_nonHalfNormal (s : Scaler) (t : Term) (p : PriorDist)
    (sub : SubPrior) (ht : t.prior = .dist p) (hsub : p.sigmaArg = some sub)
    (hn : sub.name ≠ "HalfNormal") :
    scale_group_specific s t = some t := by
  simp [scale_group_specific, PriorObj.asDist, ht, hsub, hn]

/-- The response-scaling step never touches the parent component. -/
theorem scale_response_parent {s s₁ : Scaler} (h : scale_response s = some s₁) :
    s₁.parent = s.parent := by
  unfold scale_response at h
  simp only [Option.bind_eq_bind] at h
  split at h
  · obtain ⟨comp, hc, h2⟩ := Option.bind_eq_some.mp h
    have h' := Option.some.inj h2
    rw [← h']
  · split at h
    · obtain ⟨comp, hc, h2⟩ := Option.bind_eq_some.mp h
      have h' := Option.some.inj h2
      rw [← h']
    · have h' := Option.some.inj h
      rw [← h']

/-- The threshold-scaling step never touches the parent component. -/
theorem scale_threshold_parent {s s₁ : Scaler} (h : scale_threshold s = some s₁) :
    s₁.parent = s.parent := by
  unfold scale_threshold at h
  simp only [Option.bind_eq_bind] at h
  split at h
  · obtain ⟨comp, hc, h2⟩ := Option.bind_eq_some.mp h
    obtain ⟨c, hcc, h3⟩ := Option.bind_eq_some.mp h2
    have h' := Option.some.inj h3
    rw [← h']
  · split at h
    · obtain ⟨comp, hc, h2⟩ := Option.bind_eq_some.mp h
      obtain ⟨c, hcc, h3⟩ := Option.bind_eq_some.mp h2
      have h' := Option.some.inj h3
      rw [← h']
    · have h' := Option.some.inj h
      rw [← h']

/-- Scaling one common term never touches the parent component. -/
theorem scale_common_parent {s : Scaler} {t : Term} {r : Scaler × Term}
    (h : scale_common s t = some r) : r.1.parent = s.parent := by
  unfold scale_common at h
  simp only [Option.bind_eq_bind] at h
  rcases hpr : t.prior with x | p
  · rw [hpr] at h; simp [PriorObj.asDist] at h
  · rw [hpr] at h
    simp only [PriorObj.asDist, Option.some_bind] at h
    split at h
    · have h' := Option.some.inj h
      rw [← h']
    · rcases hd : t.data with col | cols
      · rw [hd] at h
        repeat' split at h
        all_goals
          first
          | (obtain ⟨sg, hsg, h2⟩ := Option.bind_eq_some.mp h
             have h' := Option.some.inj h2
             rw [← h'])
          | (have h' := Option.some.inj h
             rw [← h'])
      · rw [hd] at h
        repeat' split at h
        all_goals
          first
          | (obtain ⟨sg, hsg, h2⟩ := Option.bind_eq_some.mp h
             have h' := Option.some.inj h2
             rw [← h'])
          | (have h' := Option.some.inj h
             rw [← h'])

/-- The common-term loop never touches the parent component. -/
theorem scaleCommons_parent :
    ∀ {ts : List Term} {s : Scaler} {r : Scaler × List Term},
      scaleCommons s ts = some r → r.1.parent = s.parent := by
  intro ts
  induction ts with
  | nil =>
    intro s r h
    have h' : (s, ([] : List Term)) = r := Option.some.inj h
    rw [← h']
  | cons t0 rest ih =>
    intro s r h
    unfold scaleCommons at h
    simp only [Option.bind_eq_bind] at h
    rcases ha : t0.prior.autoScale? with _ | b
    · rw [ha] at h
      obtain ⟨y, hy, h2⟩ := Option.bind_eq_some.mp h
      obtain ⟨rr, hrr, h3⟩ := Option.bind_eq_some.mp h2
      have hy' := Option.some.inj hy
      have h' := Option.some.inj h3
      rw [← h']
      show rr.1.parent = s.parent
      rw [ih hrr, ← hy']
    · rcases b with _ | _
      · rw [ha] at h
        obtain ⟨y, hy, h2⟩ := Option.bind_eq_some.mp h
        obtain ⟨rr, hrr, h3⟩ := Option.bind_eq_some.mp h2
        have hy' := Option.some.inj hy
        have h' := Option.some.inj h3
        rw [← h']
        show rr.1.parent = s.parent
        rw [ih hrr, ← hy']
      · rw [ha] at h
        obtain ⟨y, hy, h2⟩ := Option.bind_eq_some.mp h
        obtain ⟨rr, hrr, h3⟩ := Option.bind_eq_some.mp h2
        have h' := Option.some.inj h3
        rw [← h']
        show rr.1.parent = s.parent
        rw [ih hrr, scale_common_parent hy]

/-- The common-term loop leaves a term unchanged, in place, when its prior
lacks the auto-scale flag, has it unset, or is not Normal. -/
theorem scaleCommons_skip :
    ∀ {ts : List Term} {s : Scaler} {r : Scaler × List Term},
      scaleCommons s ts = some r →
      ∀ (i : ℕ) (t : Term), ts[i]? = some t →
        (t.prior.autoScale? = none ∨ t.prior.autoScale? = some false ∨
          (∃ p, t.prior = .dist p ∧ p.name ≠ "Normal")) →
        r.2[i]? = some t := by
  intro ts
  induction ts with
  | nil =>
    intro s r h i t hit hskip
    simp at hit
  | cons t0 rest ih =>
    intro s r h i t hit hskip
    unfold scaleCommons at h
    simp only [Option.bind_eq_bind] at h
    rcases ha : t0.prior.autoScale? with _ | b
    · rw [ha] at h
      obtain ⟨y, hy, h2⟩ := Option.bind_eq_some.mp h
      obtain ⟨rr, hrr, h3⟩ := Option.bind_eq_some.mp h2
      have hy' := Option.some.inj hy
      have h' := Option.some.inj h3
      cases i with
      | zero =>
        simp only [List.getElem?_cons_zero, Option.some.injEq] at hit
        rw [← h']
        show (y.2 :: rr.2)[0]? = some t
        simp [← hy', hit]
      | succ n =>
        simp only [List.getElem?_cons_succ] at hit
        rw [← h']
        show (y.2 :: rr.2)[n + 1]? = some t
        simpa using ih hrr n t hit hskip
    · rcases b with _ | _
      · rw [ha] at h
        obtain ⟨y, hy, h2⟩ := Option.bind_eq_some.mp h
        obtain ⟨rr, hrr, h3⟩ := Option.bind_eq_some.mp h2
        have hy' := Option.some.inj hy
        have h' := Option.some.inj h3
        cases i with
        | zero =>
          simp only [List.getElem?_cons_zero, Option.some.injEq] at hit
          rw [← h']
          show (y.2 :: rr.2)[0]? = some t
          simp [← hy', hit]
        | succ n =>
          simp only [List.getElem?_cons_succ] at hit
          rw [← h']
          show (y.2 :: rr.2)[n + 1]? = some t
          simpa using ih hrr n t hit hskip
      · rw [ha] at h
        obtain ⟨y, hy, h2⟩ := Option.bind_eq_some.mp h
        obtain ⟨rr, hrr, h3⟩ := Option.bind_eq_some.mp h2
        have h' := Option.some.inj h3
        cases i with
        | zero =>
          simp only [List.getElem?_cons_zero, Option.some.injEq] at hit
          subst hit
          have hy2 : y = (s, t0) := by
            rcases hskip with hs | hs | ⟨p, hp, hn⟩
            · rw [ha] at hs; cases hs
            · rw [ha] at hs; cases Option.some.inj hs
            · have hno := scale_common_nonNormal s t0 p hp hn
              rw [hno] at hy
              exact (Option.some.inj hy).symm
          rw [← h']
          show (y.2 :: rr.2)[0]? = some t0
          simp [hy2]
        | succ n =>
          simp only [List.getElem?_cons_succ] at hit
          rw [← h']
          show (y.2 :: rr.2)[n + 1]? = some t
          simpa using ih hrr n t hit hskip

/-- The group-specific loop leaves a term unchanged, in place, when its
flag is unset or its sigma sub-prior is not HalfNormal. -/
theorem scaleGroups_skip :
    ∀ {ts : List Term} {s : Scaler} {gs : List Term},
      scaleGroups s ts = some gs →
      ∀ (i : ℕ) (t : Term), ts[i]? = some t →
        (t.prior.autoScale? = some false ∨
          (∃ p sub, t.prior = .dist p ∧ p.auto_scale = true ∧ p.sigmaArg = some sub ∧
            sub.name ≠ "HalfNormal")) →
        gs[i]? = some t := by
  intro ts
  induction ts with
  | nil =>
    intro s gs h i t hit hskip
    simp at hit
  | cons t0 rest ih =>
    intro s gs h i t hit hskip
    unfold scaleGroups at h
    simp only [Option.bind_eq_bind] at h
    obtain ⟨auto, hat, h2⟩ := Option.bind_eq_some.mp h
    rcases auto with _ | _
    · obtain ⟨ts', hts', h3⟩ := Option.bind_eq_some.mp h2
      have h' := Option.some.inj h3
      cases i with
      | zero =>
        simp only [List.getElem?_cons_zero, Option.some.injEq] at hit
        subst hit
        rw [← h']
        show (t0 :: ts')[0]? = some t0
        simp
      | succ n =>
        simp only [List.getElem?_cons_succ] at hit
        rw [← h']
        show (t0 :: ts')[n + 1]? = some t
        simpa using ih hts' n t hit hskip
    · obtain ⟨t', ht', h3⟩ := Option.bind_eq_some.mp h2
      obtain ⟨ts', hts', h4⟩ := Option.bind_eq_some.mp h3
      have h' := Option.some.inj h4
      cases i with
      | zero =>
        simp only [List.getElem?_cons_zero, Option.some.injEq] at hit
        subst hit
        have ht0 : t' = t0 := by
          rcases hskip with hs | ⟨p, sub, hp, hpa, hps, hn⟩
          · rw [hs] at hat
            exact Bool.noConfusion (Option.some.inj hat)
          · have ht'' : scale_group_specific s t0 = some t' := ht'
            rw [scale_group_specific_nonHalfNormal s t0 p sub hp hps hn] at ht''
            exact (Option.some.inj ht'').symm
        rw [← h']
        show (t' :: ts')[0]? = some t0
        simp [ht0]
      | succ n =>
        simp only [List.getElem?_cons_succ] at hit
        rw [← h']
        show (t' :: ts')[n + 1]? = some t
        simpa using ih hts' n t hit hskip

/-- The common-term stage: intercept and group-specific terms are
untouched, and skipped common terms survive in place. -/
theorem scaleCommonStage_spec {s s₂ : Scaler} (h : scaleCommonStage s = some s₂) :
    s₂.parent.intercept_term = s.parent.intercept_term ∧
    s₂.parent.group_specific_terms = s.parent.group_specific_terms ∧
    (∀ (i : ℕ) (t : Term), s.parent.common_terms[i]? = some t →
      (t.prior.autoScale? = none ∨ t.prior.autoScale? = some false ∨
        (∃ p, t.prior = .dist p ∧ p.name ≠ "Normal")) →
      s₂.parent.common_terms[i]? = some t) := by
  unfold scaleCommonStage at h
  simp only [Option.bind_eq_bind] at h
  obtain ⟨sc, hsc, h2⟩ := Option.bind_eq_some.mp h
  have h' := Option.some.inj h2
  have hp := scaleCommons_parent hsc
  refine ⟨?_, ?_, ?_⟩
  · rw [← h']
    show sc.1.parent.intercept_term = s.parent.intercept_term
    rw [hp]
  · rw [← h']
    show sc.1.parent.group_specific_terms = s.parent.group_specific_terms
    rw [hp]
  · intro i t hit hskip
    rw [← h']
    show sc.2[i]? = some t
    exact scaleCommons_skip hsc i t hit hskip

/-- The intercept stage: common and group-specific terms are untouched,
and an intercept with an unset flag or a non-Normal prior survives. -/
theorem scaleInterceptStage_spec {s s₃ : Scaler} (h : scaleInterceptStage s = some s₃) :
    s₃.parent.common_terms = s.parent.common_terms ∧
    s₃.parent.group_specific_terms = s.parent.group_specific_terms ∧
    (∀ t : Term, s.parent.intercept_term = some t →
      (t.prior.autoScale? = some false ∨
        (∃ p, t.prior = .dist p ∧ p.auto_scale = true ∧ p.name ≠ "Normal")) →
      s₃.parent.intercept_term = some t) := by
  unfold scaleInterceptStage at h
  rcases hit : s.parent.intercept_term with _ | t0
  · rw [hit] at h
    have h' := Option.some.inj h
    refine ⟨by rw [← h'], by rw [← h'], ?_⟩
    intro t ht hskip
    exact Option.noConfusion ht
  · rw [hit] at h
    simp only [Option.bind_eq_bind] at h
    obtain ⟨auto, hat, h2⟩ := Option.bind_eq_some.mp h
    rcases auto with _ | _
    · have h' := Option.some.inj h2
      refine ⟨by rw [← h'], by rw [← h'], ?_⟩
      intro t ht hskip
      have ht0 := Option.some.inj ht
      subst ht0
      rw [← h', hit]
    · obtain ⟨t', ht', h3⟩ := Option.bind_eq_some.mp h2
      have h' := Option.some.inj h3
      refine ⟨by rw [← h'], by rw [← h'], ?_⟩
      intro t ht hskip
      have ht0 := Option.some.inj ht
      subst ht0
      rcases hskip with hs | ⟨p, hp, hpa, hn⟩
      · rw [hs] at hat
        exact Bool.noConfusion (Option.some.inj hat)
      · have ht'' : scale_intercept s t0 = some t' := ht'
        rw [scale_intercept_nonNormal s t0 p hp hn] at ht''
        have htt := Option.some.inj ht''
        rw [← h']
        show some t' = some t0
        rw [← htt]

/-- The group-specific stage: common terms and the intercept are
untouched, and skipped group-specific terms survive in place. -/
theorem scaleGroupStage_spec {s s₄ : Scaler} (h : scaleGroupStage s = some s₄) :
    s₄.parent.common_terms = s.parent.common_terms ∧
    s₄.parent.intercept_term = s.parent.intercept_term ∧
    (∀ (i : ℕ) (t : Term), s.parent.group_specific_terms[i]? = some t →
      (t.prior.autoScale? = some false ∨
        (∃ p sub, t.prior = .dist p ∧ p.auto_scale = true ∧ p.sigmaArg = some sub ∧
          sub.name ≠ "HalfNormal")) →
      s₄.parent.group_specific_terms[i]? = some t) := by
  unfold scaleGroupStage at h
  simp only [Option.bind_eq_bind] at h
  obtain ⟨gs, hgs, h2⟩ := Option.bind_eq_some.mp h
  have h' := Option.some.inj h2
  refine ⟨by rw [← h'], by rw [← h'], ?_⟩
  intro i t hit hskip
  rw [← h']
  show gs[i]? = some t
  exact scaleGroups_skip hgs i t hit hskip

/-- C6: amended.  The full scaling pass silently skips, leaving the prior
unchanged: common terms whose prior lacks the auto-scale flag, has it
unset, or is not Normal; an intercept whose flag is unset or whose prior
is not Normal; and group-specific terms whose flag is unset or whose sigma
sub-prior is not HalfNormal.  (An intercept, group-specific, or threshold
prior that lacks the flag entirely instead raises, see the
counterexample.) -/
theorem scale_skips_ineligible (m : Model) (s' : Scaler) (h : scale m = some s') :
    (∀ (i : ℕ) (t : Term), m.parent.common_terms[i]? = some t →
      (t.prior.autoScale? = none ∨ t.prior.autoScale? = some false ∨
        (∃ p, t.prior = .dist p ∧ p.name ≠ "Normal")) →
      s'.parent.common_terms[i]? = some t) ∧
    (∀ t : Term, m.parent.intercept_term = some t →
      (t.prior.autoScale? = some false ∨
        (∃ p, t.prior = .dist p ∧ p.auto_scale = true ∧ p.name ≠ "Normal")) →
      s'.parent.intercept_term = some t) ∧
    (∀ (i : ℕ) (t : Term), m.parent.group_specific_terms[i]? = some t →
      (t.prior.autoScale? = some false ∨
        (∃ p sub, t.prior = .dist p ∧ p.auto_scale = true ∧ p.sigmaArg = some sub ∧
          sub.name ≠ "HalfNormal")) →
      s'.parent.group_specific_terms[i]? = some t) := by
  unfold scale at h
  simp only [Option.bind_eq_bind] at h
  obtain ⟨s1, hr, h2⟩ := Option.bind_eq_some.mp h
  obtain ⟨s2, hc, h3⟩ := Option.bind_eq_some.mp h2
  obtain ⟨s3, hi, h4⟩ := Option.bind_eq_some.mp h3
  obtain ⟨s4, hg, hth⟩ := Option.bind_eq_some.mp h4
  have hp1 : s1.parent = m.parent := scale_response_parent hr
  have hC := scaleCommonStage_spec hc
  have hI := scaleInterceptStage_spec hi
  have hG := scaleGroupStage_spec hg
  have hT : s'.parent = s4.parent := scale_threshold_parent hth
  refine ⟨?_, ?_, ?_⟩
  · intro i t hit hskip
    rw [hT, hG.1, hI.1]
    apply hC.2.2 i t ?_ hskip
    rw [hp1]
    exact hit
  · intro t hti hskip
    rw [hT, hG.2.1]
    apply hI.2.2 t ?_ hskip
    rw [hC.1, hp1]
    exact hti
  · intro i t hit hskip
    rw [hT]
    apply hG.2.2 i t ?_ hskip
    rw [hI.2.1, hC.2.1, hp1]
    exact hit

/-- A model whose intercept prior is a bare number, lacking the
auto-scale flag. -/
def badModel : Model :=
  { family := ⟨.otherFamily, "identity"⟩
    responseData := [0, 1]
    parent := { intercept_term := some { name := "Intercept", kind := "intercept", categorical := false, data := .one [1, 1], prior := .num 1 } } }

/-- C6 counterexample: the claim says a term whose prior lacks the
auto-scale flag entirely is silently skipped by the full pass; but for an
intercept term the flag is read without a `hasattr` guard
(`if term.prior.auto_scale:`), so `scale` raises `AttributeError`
(embedded as `none`) instead of completing with the term untouched. -/
theorem scale_flagless_intercept_raises : scale badModel = none := by
  rfl

/-- A common term whose prior is a bare number. -/
def skipTerm : Term :=
  { name := "z", kind := "numeric", categorical := false, data := .one [0, 1], prior := .num 3 }

/-- A model with one flagless common term and nothing else. -/
def skipModel : Model :=
  { family := ⟨.otherFamily, "identity"⟩
    responseData := [0, 1]
    parent := { common_terms := [skipTerm] } }

/-- C6 witness: the pass completes on the concrete model and the flagless
common term survives unchanged at its position. -/
theorem scale_skips_ineligible_witness :
    scale skipModel = some (PriorScaler.init skipModel) ∧
    skipTerm.prior.autoScale? = none ∧
    (PriorScaler.init skipModel).parent.common_terms[0]? = some skipTerm :=
  ⟨rfl, rfl,
    (scale_skips_ineligible skipModel (PriorScaler.init skipModel) rfl).1 0 skipTerm rfl
      (Or.inl rfl)⟩

end

end Bambi
